import Mathlib

/-!
Verification development for the leonidas-bot text-segmentation core.

The Rust sources are embedded shallowly:
* text is modelled as `String` (a structure over `List Char`), and the
  character-level Rust primitives `str::split`, `slice::join`, `str::trim`
  and the `\n{3,}` newline-collapsing regex are given as executable Lean
  functions over `List Char`;
* `openai::count_tokens` (resp. `youtube::count_tokens`) wraps the external
  `tiktoken_rs` library, whose tokenizer is outside the repository; every
  function that consumes it is therefore parametrised by an arbitrary
  counter `ct : List ChatMessage → Nat`;
* the asynchronous chat call in `youtube.rs` is modelled by an abstract
  per-attempt outcome function together with an explicit event trace
  recording network attempts and sleeps.
-/

/-- `openai.rs` / `youtube.rs`: one role-tagged chat message. -/
structure ChatMessage where
  role : String
  content : String
deriving DecidableEq

/-- `youtube.rs`: a complete chat-completion request body. -/
structure ChatApiRequest where
  model : String
  messages : List ChatMessage
deriving DecidableEq

/-- Rust `str::split(sep)` at the character level: split on every occurrence
of `sep`, keeping empty pieces (so the result is never empty, and splitting
the empty text yields `[[]]`). -/
def splitOnC (sep : Char) : List Char → List (List Char)
  | [] => [[]]
  | c :: cs =>
    if c = sep then [] :: splitOnC sep cs
    else
      match splitOnC sep cs with
      | [] => [[c]]
      | w :: ws => (c :: w) :: ws

/-- Rust `slice::join(sep)` at the character level: concatenate the pieces
with a single `sep` between consecutive pieces. -/
def joinSep (sep : Char) : List (List Char) → List Char
  | [] => []
  | [w] => w
  | w :: ws => w ++ sep :: joinSep sep ws

/-- Rust `raw_transcript.split(' ').collect::<Vec<_>>()`. -/
def splitW (s : String) : List String :=
  (splitOnC ' ' s.data).map String.mk

/-- Rust `chunk.join(" ")`. -/
def joinW (l : List String) : String :=
  String.mk (joinSep ' ' (l.map String.data))

theorem splitOnC_ne_nil (sep : Char) (l : List Char) : splitOnC sep l ≠ [] := by
  cases l with
  | nil => simp [splitOnC]
  | cons c cs =>
    simp only [splitOnC]
    split
    · simp
    · split <;> simp

theorem mem_splitOnC_sub (sep : Char) {l : List Char} {w : List Char}
    (hw : w ∈ splitOnC sep l) : ∀ c ∈ w, c ∈ l := by
  induction l generalizing w with
  | nil =>
    simp only [splitOnC, List.mem_singleton] at hw
    subst hw; simp
  | cons c cs ih =>
    simp only [splitOnC] at hw
    split at hw
    · rcases List.mem_cons.mp hw with h | h
      · subst h; simp
      · intro a ha; exact List.mem_cons_of_mem _ (ih h a ha)
    · rcases h : splitOnC sep cs with _ | ⟨v, vs⟩
      · exact absurd h (splitOnC_ne_nil sep cs)
      · rw [h] at hw
        have hv : v ∈ splitOnC sep cs := by rw [h]; exact List.mem_cons_self v vs
        rcases List.mem_cons.mp hw with h' | h'
        · subst h'
          intro a ha
          rcases List.mem_cons.mp ha with h'' | h''
          · subst h''; exact List.mem_cons_self a cs
          · exact List.mem_cons_of_mem _ (ih hv a h'')
        · intro a ha
          have hw' : w ∈ splitOnC sep cs := by rw [h]; exact List.mem_cons_of_mem v h'
          exact List.mem_cons_of_mem _ (ih hw' a ha)

theorem not_sep_mem_splitOnC (sep : Char) {l : List Char} {w : List Char}
    (hw : w ∈ splitOnC sep l) : sep ∉ w := by
  induction l generalizing w with
  | nil =>
    simp only [splitOnC, List.mem_singleton] at hw
    subst hw; simp
  | cons c cs ih =>
    simp only [splitOnC] at hw
    split at hw
    · rcases List.mem_cons.mp hw with h | h
      · subst h; simp
      · exact ih h
    · rename_i hne
      rcases h : splitOnC sep cs with _ | ⟨v, vs⟩
      · exact absurd h (splitOnC_ne_nil sep cs)
      · rw [h] at hw
        have hv : v ∈ splitOnC sep cs := by rw [h]; exact List.mem_cons_self v vs
        rcases List.mem_cons.mp hw with h' | h'
        · subst h'
          intro hmem
          rcases List.mem_cons.mp hmem with h'' | h''
          · exact hne h''.symm
          · exact ih hv h''
        · have hw' : w ∈ splitOnC sep cs := by rw [h]; exact List.mem_cons_of_mem v h'
          exact ih hw'

theorem splitOnC_of_not_mem (sep : Char) {l : List Char} (h : sep ∉ l) :
    splitOnC sep l = [l] := by
  induction l with
  | nil => rfl
  | cons c cs ih =>
    simp only [splitOnC]
    rw [if_neg (by intro hc; exact h (hc ▸ List.mem_cons_self c cs))]
    rw [ih (fun hm => h (List.mem_cons_of_mem c hm))]

theorem joinSep_cons_of_ne_nil (sep : Char) (w : List Char) {ws : List (List Char)}
    (h : ws ≠ []) : joinSep sep (w :: ws) = w ++ sep :: joinSep sep ws := by
  cases ws with
  | nil => exact absurd rfl h
  | cons v vs => rfl

theorem joinSep_splitOnC (sep : Char) (l : List Char) :
    joinSep sep (splitOnC sep l) = l := by
  induction l with
  | nil => rfl
  | cons c cs ih =>
    simp only [splitOnC]
    split
    · rename_i hc
      rw [joinSep_cons_of_ne_nil sep [] (splitOnC_ne_nil sep cs)]
      simp [hc, ih]
    · rcases h : splitOnC sep cs with _ | ⟨v, vs⟩
      · exact absurd h (splitOnC_ne_nil sep cs)
      · rw [h] at ih
        cases vs with
        | nil => simpa [joinSep] using congrArg (c :: ·) ih
        | cons v' vs' =>
          rw [joinSep_cons_of_ne_nil sep (c :: v) (by simp)]
          rw [joinSep_cons_of_ne_nil sep v (by simp)] at ih
          simpa using congrArg (c :: ·) ih

theorem joinSep_append (sep : Char) {P Q : List (List Char)}
    (hP : P ≠ []) (hQ : Q ≠ []) :
    joinSep sep (P ++ Q) = joinSep sep P ++ sep :: joinSep sep Q := by
  induction P with
  | nil => exact absurd rfl hP
  | cons w ws ih =>
    cases ws with
    | nil =>
      rw [List.singleton_append, joinSep_cons_of_ne_nil sep w hQ]
      rfl
    | cons v vs =>
      rw [List.cons_append, joinSep_cons_of_ne_nil sep w (by simp),
        joinSep_cons_of_ne_nil sep w (by simp), ih (by simp)]
      simp

theorem joinSep_map_flatten (sep : Char) (P : List (List (List Char)))
    (h : ∀ q ∈ P, q ≠ []) :
    joinSep sep (P.map (joinSep sep)) = joinSep sep P.flatten := by
  induction P with
  | nil => rfl
  | cons q qs ih =>
    cases qs with
    | nil => simp [joinSep]
    | cons q' qs' =>
      have hq : q ≠ [] := h q (by simp)
      have hflat : (q' :: qs').flatten ≠ [] := by
        have hq' : q' ≠ [] := h q' (by simp)
        simp only [List.flatten_cons]
        intro hcontra
        exact hq' (List.append_eq_nil.mp hcontra).1
      rw [List.map_cons, List.flatten_cons,
        joinSep_cons_of_ne_nil sep (joinSep sep q) (by simp),
        joinSep_append sep hq hflat,
        ih (fun x hx => h x (List.mem_cons_of_mem q hx))]

/-- Rust `str::trim`: drop whitespace from both ends. -/
def trimChars (l : List Char) : List Char :=
  ((l.dropWhile Char.isWhitespace).reverse.dropWhile Char.isWhitespace).reverse

/-- Cap a run of `k` consecutive newlines the way the `\n{3,}` → `"\n\n"`
replacement does: runs of three or more collapse to two. -/
def capRun (k : Nat) : Nat :=
  if 3 ≤ k then 2 else k

/-- State machine for the regex replacement in `utils.rs`: `k` counts the
pending newlines seen so far. -/
def collapseGo : Nat → List Char → List Char
  | k, [] => List.replicate (capRun k) '\n'
  | k, c :: cs =>
    if c = '\n' then collapseGo (k + 1) cs
    else List.replicate (capRun k) '\n' ++ c :: collapseGo 0 cs

/-- Rust `re.replace_all(chunk, "\n\n")` for `re = \n{3,}`. -/
def collapseNL (l : List Char) : List Char :=
  collapseGo 0 l

theorem trimChars_length_le (l : List Char) : (trimChars l).length ≤ l.length := by
  unfold trimChars
  calc ((l.dropWhile Char.isWhitespace).reverse.dropWhile Char.isWhitespace).reverse.length
      = ((l.dropWhile Char.isWhitespace).reverse.dropWhile Char.isWhitespace).length := by
        rw [List.length_reverse]
    _ ≤ (l.dropWhile Char.isWhitespace).reverse.length :=
        (List.dropWhile_sublist _).length_le
    _ = (l.dropWhile Char.isWhitespace).length := by rw [List.length_reverse]
    _ ≤ l.length := (List.dropWhile_sublist _).length_le

theorem mem_trimChars_sub {l : List Char} : ∀ c ∈ trimChars l, c ∈ l := by
  intro c hc
  unfold trimChars at hc
  rw [List.mem_reverse] at hc
  have h1 := (List.dropWhile_sublist (l := (l.dropWhile Char.isWhitespace).reverse)
    Char.isWhitespace).subset hc
  rw [List.mem_reverse] at h1
  exact (List.dropWhile_sublist (l := l) Char.isWhitespace).subset h1

theorem capRun_le (k : Nat) : capRun k ≤ k := by
  unfold capRun; split <;> omega

theorem collapseGo_length_le (l : List Char) : ∀ k, (collapseGo k l).length ≤ k + l.length := by
  induction l with
  | nil =>
    intro k
    simp only [collapseGo, List.length_replicate, List.length_nil, Nat.add_zero]
    exact capRun_le k
  | cons c cs ih =>
    intro k
    simp only [collapseGo]
    split
    · calc (collapseGo (k + 1) cs).length ≤ (k + 1) + cs.length := ih (k + 1)
        _ = k + (c :: cs).length := by simp [Nat.add_comm, Nat.add_left_comm]
    · simp only [List.length_append, List.length_replicate, List.length_cons]
      have := capRun_le k
      have := ih 0
      omega

theorem collapseNL_length_le (l : List Char) : (collapseNL l).length ≤ l.length := by
  simpa using collapseGo_length_le l 0

theorem collapseGo_of_no_nl {l : List Char} (h : '\n' ∉ l) : collapseGo 0 l = l := by
  induction l with
  | nil => rfl
  | cons c cs ih =>
    simp only [collapseGo]
    rw [if_neg (by intro hc; exact h (hc ▸ List.mem_cons_self c cs))]
    simp [capRun, ih (fun hm => h (List.mem_cons_of_mem c hm))]

theorem collapseNL_of_no_nl {l : List Char} (h : '\n' ∉ l) : collapseNL l = l :=
  collapseGo_of_no_nl h

/-- Fuel-driven core of Rust `slice::chunks`; the fuel is always instantiated
with the length of the list, which suffices whenever `0 < k`. -/
def chunksOfAux : Nat → Nat → List α → List (List α)
  | _, _, [] => []
  | 0, _, c :: cs => [c :: cs]
  | f + 1, k, c :: cs => (c :: cs).take k :: chunksOfAux f k ((c :: cs).drop k)

/-- Rust `slice::chunks(k)` (for `0 < k`): contiguous runs of `k` elements,
the last chunk possibly shorter. -/
def chunksOf (k : Nat) (l : List α) : List (List α) :=
  chunksOfAux l.length k l

theorem chunksOfAux_nil (f k : Nat) : chunksOfAux f k ([] : List α) = [] := by
  cases f <;> rfl

theorem chunksOfAux_flatten {k : Nat} (hk : 0 < k) :
    ∀ (f : Nat) (l : List α), l.length ≤ f → (chunksOfAux f k l).flatten = l := by
  intro f
  induction f with
  | zero =>
    intro l hl
    rw [List.length_eq_zero.mp (Nat.le_zero.mp hl)]
    rfl
  | succ f ih =>
    intro l hl
    cases l with
    | nil => rfl
    | cons c cs =>
      simp only [chunksOfAux, List.flatten_cons]
      rw [ih ((c :: cs).drop k) (by simp only [List.length_drop, List.length_cons] at hl ⊢; omega)]
      exact List.take_append_drop k (c :: cs)

theorem chunksOf_flatten {k : Nat} (hk : 0 < k) (l : List α) :
    (chunksOf k l).flatten = l :=
  chunksOfAux_flatten hk l.length l (Nat.le_refl _)

theorem chunksOfAux_length {k : Nat} (hk : 0 < k) :
    ∀ (f : Nat) (l : List α), l.length ≤ f →
      (chunksOfAux f k l).length = (l.length + (k - 1)) / k := by
  intro f
  induction f with
  | zero =>
    intro l hl
    rw [List.length_eq_zero.mp (Nat.le_zero.mp hl)]
    simp only [chunksOfAux, List.length_nil, Nat.zero_add]
    rw [Nat.div_eq_of_lt (by omega)]
  | succ f ih =>
    intro l hl
    cases l with
    | nil =>
      simp only [chunksOfAux, List.length_nil, Nat.zero_add]
      rw [Nat.div_eq_of_lt (by omega)]
    | cons c cs =>
      simp only [chunksOfAux, List.length_cons]
      rw [ih ((c :: cs).drop k) (by simp only [List.length_drop, List.length_cons] at hl ⊢; omega)]
      simp only [List.length_drop, List.length_cons]
      rcases le_or_lt (cs.length + 1) k with hle | hlt
      · have h1 : (k - 1) / k = 0 := Nat.div_eq_of_lt (by omega)
        have h2 : (cs.length + 1 + (k - 1)) / k = 1 :=
          Nat.div_eq_of_lt_le (by omega) (by omega)
        rw [Nat.sub_eq_zero_of_le hle, Nat.zero_add, h1, h2]
      · have he : cs.length + 1 + (k - 1) = (cs.length + 1 - k + (k - 1)) + k := by omega
        rw [he, Nat.add_div_right _ hk]

theorem chunksOf_length {k : Nat} (hk : 0 < k) (l : List α) :
    (chunksOf k l).length = (l.length + (k - 1)) / k :=
  chunksOfAux_length hk l.length l (Nat.le_refl _)

theorem chunksOfAux_mem {k : Nat} (hk : 0 < k) :
    ∀ (f : Nat) (l : List α), l.length ≤ f →
      ∀ p ∈ chunksOfAux f k l, p.length ≤ k ∧ p ≠ [] := by
  intro f
  induction f with
  | zero =>
    intro l hl
    rw [List.length_eq_zero.mp (Nat.le_zero.mp hl)]
    simp [chunksOfAux]
  | succ f ih =>
    intro l hl p hp
    cases l with
    | nil => simp [chunksOfAux] at hp
    | cons c cs =>
      simp only [chunksOfAux] at hp
      rcases List.mem_cons.mp hp with h | h
      · subst h
        constructor
        · simp only [List.length_take, List.length_cons]
          omega
        · cases k with
          | zero => omega
          | succ k' => simp
      · exact ih ((c :: cs).drop k)
          (by simp only [List.length_drop, List.length_cons] at hl ⊢; omega) p h

theorem chunksOf_mem {k : Nat} (hk : 0 < k) (l : List α) :
    ∀ p ∈ chunksOf k l, p.length ≤ k ∧ p ≠ [] :=
  chunksOfAux_mem hk l.length l (Nat.le_refl _)

theorem chunksOfAux_dropLast {k : Nat} (hk : 0 < k) :
    ∀ (f : Nat) (l : List α), l.length ≤ f →
      ∀ p ∈ (chunksOfAux f k l).dropLast, p.length = k := by
  intro f
  induction f with
  | zero =>
    intro l hl
    rw [List.length_eq_zero.mp (Nat.le_zero.mp hl)]
    simp [chunksOfAux]
  | succ f ih =>
    intro l hl p hp
    cases l with
    | nil => simp [chunksOfAux] at hp
    | cons c cs =>
      simp only [chunksOfAux] at hp
      rcases hrest : chunksOfAux f k ((c :: cs).drop k) with _ | ⟨q, qs⟩
      · rw [hrest] at hp
        simp at hp
      · rw [hrest, List.dropLast_cons₂] at hp
        rcases List.mem_cons.mp hp with h | h
        · subst h
          have hdrop : (c :: cs).drop k ≠ [] := by
            intro hnil
            rw [hnil, chunksOfAux_nil] at hrest
            exact List.noConfusion hrest
          have hklt : k < (c :: cs).length := by
            by_contra hge
            exact hdrop (List.drop_eq_nil_of_le (Nat.le_of_not_lt hge))
          simp only [List.length_cons] at hklt
          simp only [List.length_take, List.length_cons]
          omega
        · have := ih ((c :: cs).drop k)
            (by simp only [List.length_drop, List.length_cons] at hl ⊢; omega) p
          rw [hrest] at this
          exact this h

theorem chunksOf_dropLast {k : Nat} (hk : 0 < k) (l : List α) :
    ∀ p ∈ (chunksOf k l).dropLast, p.length = k :=
  chunksOfAux_dropLast hk l.length l (Nat.le_refl _)

/-- The trimmed paragraphs of `utils.rs`: `s.split("\n").map(|p| p.trim())`. -/
def trimmedParas (s : String) : List (List Char) :=
  (splitOnC '\n' s.data).map trimChars

/-- The flat-map step of `utils.rs`: a paragraph within budget stays whole,
an oversized one degrades to its space-separated words. -/
def fragExpand (maxc : Nat) (p : List Char) : List (List Char) :=
  if p.length ≤ maxc then [p] else splitOnC ' ' p

/-- The normalized fragment stream of `break_text_into_chunks`: trimmed
paragraphs interspersed with a `"\n\n"` separator, oversized paragraphs
expanded to words. -/
def breakFragments (maxc : Nat) (s : String) : List (List Char) :=
  ((trimmedParas s).intersperse ['\n', '\n']).flatMap (fragExpand maxc)

/-- The greedy accumulation loop of `break_text_into_chunks`: flush the
current chunk (trimmed) whenever the next fragment would push it over
budget, and push the final chunk untrimmed. -/
def accumulate (maxc : Nat) : List (List Char) → List Char → List (List Char)
  | [], cur => [cur]
  | p :: ps, cur =>
    if cur ≠ [] ∧ maxc < cur.length + p.length then
      trimChars cur :: accumulate maxc ps p
    else
      accumulate maxc ps (cur ++ p)

/-- `utils.rs::break_text_into_chunks`. -/
def break_text_into_chunks (s : String) (maxc : Nat) : List String :=
  ((accumulate maxc (breakFragments maxc s) []).map collapseNL).map String.mk

/-- A word fragment produced from an oversized paragraph. -/
def OversizedWord (s : String) (maxc : Nat) (f : List Char) : Prop :=
  ∃ p ∈ trimmedParas s, maxc < p.length ∧ f ∈ splitOnC ' ' p

theorem trimmedParas_no_nl (s : String) : ∀ p ∈ trimmedParas s, '\n' ∉ p := by
  intro p hp
  rcases List.mem_map.mp hp with ⟨q, hq, hpq⟩
  subst hpq
  intro hmem
  exact not_sep_mem_splitOnC '\n' hq (mem_trimChars_sub _ hmem)

theorem oversizedWord_no_nl {s : String} {maxc : Nat} {f : List Char}
    (h : OversizedWord s maxc f) : '\n' ∉ f := by
  rcases h with ⟨p, hp, _, hf⟩
  intro hmem
  exact trimmedParas_no_nl s p hp (mem_splitOnC_sub ' ' hf '\n' hmem)

theorem mem_intersperse {α : Type _} (sep : α) {l : List α} {x : α}
    (hx : x ∈ l.intersperse sep) : x = sep ∨ x ∈ l := by
  induction l with
  | nil => simp [List.intersperse] at hx
  | cons a as ih =>
    cases as with
    | nil =>
      simp only [List.intersperse, List.mem_singleton] at hx
      exact Or.inr (hx ▸ List.mem_cons_self a [])
    | cons b bs =>
      rw [List.intersperse_cons₂] at hx
      rcases List.mem_cons.mp hx with h | h
      · exact Or.inr (h ▸ List.mem_cons_self a (b :: bs))
      · rcases List.mem_cons.mp h with h' | h'
        · exact Or.inl h'
        · rcases ih h' with h'' | h''
          · exact Or.inl h''
          · exact Or.inr (List.mem_cons_of_mem a h'')

theorem fragExpand_sep (maxc : Nat) : fragExpand maxc ['\n', '\n'] = [['\n', '\n']] := by
  unfold fragExpand
  split
  · rfl
  · rfl

theorem fragExpand_ne_nil (maxc : Nat) (p : List Char) : fragExpand maxc p ≠ [] := by
  unfold fragExpand
  split
  · simp
  · exact splitOnC_ne_nil ' ' p

/-- Every fragment is either a within-budget trimmed paragraph, a word of an
oversized paragraph, or the two-newline separator. -/
theorem breakFragments_classify (maxc : Nat) (s : String) :
    ∀ f ∈ breakFragments maxc s,
      f.length ≤ maxc ∨ OversizedWord s maxc f ∨ f = ['\n', '\n'] := by
  intro f hf
  rcases List.mem_flatMap.mp hf with ⟨q, hq, hfq⟩
  rcases mem_intersperse _ hq with hsep | hpara
  · subst hsep
    rw [fragExpand_sep] at hfq
    exact Or.inr (Or.inr (List.mem_singleton.mp hfq))
  · unfold fragExpand at hfq
    split at hfq
    · rename_i hle
      exact Or.inl ((List.mem_singleton.mp hfq) ▸ hle)
    · rename_i hgt
      exact Or.inr (Or.inl ⟨q, hpara, Nat.lt_of_not_le hgt, hfq⟩)

theorem flatMap_getLast?_no_nl (maxc : Nat) :
    ∀ (tp : List (List Char)), tp ≠ [] → (∀ p ∈ tp, '\n' ∉ p) →
      ∀ w, ((tp.intersperse ['\n', '\n']).flatMap (fragExpand maxc)).getLast? = some w →
        '\n' ∉ w := by
  intro tp
  induction tp with
  | nil => intro h; exact absurd rfl h
  | cons p ps ih =>
    intro _ hnl w hw
    cases ps with
    | nil =>
      simp only [List.intersperse_single, List.flatMap_cons, List.flatMap_nil,
        List.append_nil] at hw
      have hwmem : w ∈ fragExpand maxc p := by
        have := List.mem_of_mem_getLast? hw
        exact this
      unfold fragExpand at hwmem
      split at hwmem
      · exact (List.mem_singleton.mp hwmem) ▸ hnl p (List.mem_cons_self p [])
      · intro hmem
        exact hnl p (List.mem_cons_self p []) (mem_splitOnC_sub ' ' hwmem '\n' hmem)
    | cons q qs =>
      rw [List.intersperse_cons₂, List.flatMap_cons, List.flatMap_cons] at hw
      have hne : ((q :: qs).intersperse ['\n', '\n']).flatMap (fragExpand maxc) ≠ [] := by
        cases hqq : (q :: qs).intersperse ['\n', '\n'] with
        | nil =>
          exfalso
          cases qs with
          | nil => simp [List.intersperse_single] at hqq
          | cons r rs => rw [List.intersperse_cons₂] at hqq; exact List.noConfusion hqq
        | cons u us =>
          rw [List.flatMap_cons]
          intro hcontra
          exact fragExpand_ne_nil maxc u (List.append_eq_nil.mp hcontra).1
      rw [← List.append_assoc, List.getLast?_append_of_ne_nil _ hne] at hw
      exact ih (by simp) (fun r hr => hnl r (List.mem_cons_of_mem p hr)) w hw

theorem breakFragments_getLast?_no_nl (maxc : Nat) (s : String) :
    ∀ w, (breakFragments maxc s).getLast? = some w → '\n' ∉ w := by
  intro w hw
  apply flatMap_getLast?_no_nl maxc (trimmedParas s) _ (trimmedParas_no_nl s) w hw
  unfold trimmedParas
  intro hcontra
  exact splitOnC_ne_nil '\n' s.data (List.map_eq_nil_iff.mp hcontra)

/-- Invariant of the greedy loop: every emitted chunk is within budget or is
a single oversized word (possibly trimmed, if flushed mid-loop). -/
theorem accumulate_spec (s : String) (maxc : Nat) :
    ∀ (frags : List (List Char)) (cur : List Char),
      (cur.length ≤ maxc ∨ OversizedWord s maxc cur ∨
        (cur = ['\n', '\n'] ∧ frags ≠ [])) →
      (∀ p ∈ frags, p.length ≤ maxc ∨ OversizedWord s maxc p ∨ p = ['\n', '\n']) →
      (∀ w, frags.getLast? = some w → '\n' ∉ w) →
      ∀ c ∈ accumulate maxc frags cur,
        c.length ≤ maxc ∨
        ∃ f, OversizedWord s maxc f ∧ maxc < f.length ∧ (c = f ∨ c = trimChars f) := by
  intro frags
  induction frags with
  | nil =>
    intro cur hcur _ _ c hc
    rcases List.mem_singleton.mp hc with rfl
    rcases hcur with h | h | h
    · exact Or.inl h
    · rcases le_or_lt c.length maxc with hle | hlt
      · exact Or.inl hle
      · exact Or.inr ⟨c, h, hlt, Or.inl rfl⟩
    · exact absurd rfl h.2
  | cons p ps ih =>
    intro cur hcur hfr hlast c hc
    have hp := hfr p (List.mem_cons_self p ps)
    have hfr' : ∀ q ∈ ps, q.length ≤ maxc ∨ OversizedWord s maxc q ∨ q = ['\n', '\n'] :=
      fun q hq => hfr q (List.mem_cons_of_mem p hq)
    have hlast' : ∀ w, ps.getLast? = some w → '\n' ∉ w := by
      intro w hw
      have hps : ps ≠ [] := by
        intro hnil
        rw [hnil] at hw
        simp [List.getLast?] at hw
      cases ps with
      | nil => exact absurd rfl hps
      | cons q qs => exact hlast w (by rw [List.getLast?_cons_cons]; exact hw)
    have hpgood : p.length ≤ maxc ∨ OversizedWord s maxc p ∨ (p = ['\n', '\n'] ∧ ps ≠ []) := by
      rcases hp with h | h | h
      · exact Or.inl h
      · exact Or.inr (Or.inl h)
      · right; right
        refine ⟨h, ?_⟩
        intro hnil
        subst hnil
        have : '\n' ∉ p := hlast p rfl
        rw [h] at this
        exact this (List.mem_cons_self _ _)
    simp only [accumulate] at hc
    split at hc
    · rcases List.mem_cons.mp hc with hcc | hcc
      · subst hcc
        rcases hcur with h | h | h
        · exact Or.inl (Nat.le_trans (trimChars_length_le cur) h)
        · rcases le_or_lt cur.length maxc with hle | hlt
          · exact Or.inl (Nat.le_trans (trimChars_length_le cur) hle)
          · exact Or.inr ⟨cur, h, hlt, Or.inr rfl⟩
        · rw [h.1]
          exact Or.inl (by simp [trimChars, Char.isWhitespace])
      · exact ih p hpgood hfr' hlast' c hcc
    · rename_i hcond
      rcases not_and_or.mp hcond with hnil | hle
      · have : cur = [] := not_not.mp hnil
        subst this
        rw [List.nil_append] at hc
        exact ih p hpgood hfr' hlast' c hc
      · have hlen : (cur ++ p).length ≤ maxc := by
          rw [List.length_append]
          omega
        exact ih (cur ++ p) (Or.inl hlen) hfr' hlast' c hc

/-- If no prefix of the fragment stream ever exceeds the budget, the loop
never flushes and returns a single chunk: the concatenation of everything. -/
theorem accumulate_total (maxc : Nat) :
    ∀ (frags : List (List Char)) (cur : List Char),
      cur.length + (frags.map List.length).sum ≤ maxc →
      accumulate maxc frags cur = [cur ++ frags.flatten] := by
  intro frags
  induction frags with
  | nil => intro cur _; simp [accumulate]
  | cons p ps ih =>
    intro cur htot
    simp only [List.map_cons, List.sum_cons] at htot
    have hcond : ¬(cur ≠ [] ∧ maxc < cur.length + p.length) := by
      rintro ⟨_, hlt⟩
      omega
    simp only [accumulate, if_neg hcond]
    rw [ih (cur ++ p) (by rw [List.length_append]; omega)]
    simp [List.flatten_cons]

theorem length_mk (l : List Char) : (String.mk l).length = l.length := rfl

theorem flatMap_singleton_eq {α : Type _} (g : α → List α) :
    ∀ l : List α, (∀ x ∈ l, g x = [x]) → l.flatMap g = l := by
  intro l
  induction l with
  | nil => intro _; rfl
  | cons x xs ih =>
    intro h
    rw [List.flatMap_cons, h x (List.mem_cons_self x xs),
      ih (fun y hy => h y (List.mem_cons_of_mem x hy))]
    rfl

/-- C4: for every input and positive budget, every chunk produced by
`break_text_into_chunks` has character count at or below the budget, except
when it is (the trim of) a single word of an oversized paragraph that alone
exceeds the budget. -/
theorem break_text_into_chunks_budget (s : String) (maxc : Nat) (hm : 0 < maxc) :
    ∀ c ∈ break_text_into_chunks s maxc,
      c.length ≤ maxc ∨
      ∃ p w, p ∈ trimmedParas s ∧ maxc < p.length ∧ w ∈ splitOnC ' ' p ∧
        maxc < w.length ∧ (c = String.mk w ∨ c = String.mk (trimChars w)) := by
  have _ := hm
  intro c hc
  unfold break_text_into_chunks at hc
  rcases List.mem_map.mp hc with ⟨d', hd', rfl⟩
  rcases List.mem_map.mp hd' with ⟨d, hd, rfl⟩
  have h := accumulate_spec s maxc (breakFragments maxc s) []
    (Or.inl (by simp)) (breakFragments_classify maxc s)
    (breakFragments_getLast?_no_nl maxc s) d hd
  rcases h with hle | ⟨f, hOWF, hflen, hdf⟩
  · exact Or.inl (by
      rw [length_mk]
      exact Nat.le_trans (collapseNL_length_le d) hle)
  · have hnl : '\n' ∉ f := oversizedWord_no_nl hOWF
    rcases hOWF with ⟨p, hp, hplen, hfmem⟩
    rcases hdf with hdf | hdf
    · rw [hdf, collapseNL_of_no_nl hnl]
      exact Or.inr ⟨p, f, hp, hplen, hfmem, hflen, Or.inl rfl⟩
    · have hnl' : '\n' ∉ trimChars f := fun hmem => hnl (mem_trimChars_sub _ hmem)
      rw [hdf, collapseNL_of_no_nl hnl']
      exact Or.inr ⟨p, f, hp, hplen, hfmem, hflen, Or.inr rfl⟩

/-- C4 witness: a concrete run at budget 10 on input `"hello"`. -/
theorem break_text_into_chunks_budget_witness :
    (0 < 10) ∧ "hello" ∈ break_text_into_chunks "hello" 10 ∧
    (("hello" : String).length ≤ 10 ∨
      ∃ p w, p ∈ trimmedParas "hello" ∧ 10 < p.length ∧ w ∈ splitOnC ' ' p ∧
        10 < w.length ∧ ("hello" = String.mk w ∨ "hello" = String.mk (trimChars w))) :=
  ⟨by decide, by decide,
    break_text_into_chunks_budget "hello" 10 (by decide) "hello" (by decide)⟩

/-- The newline-normalized form of a text: its paragraphs trimmed and
rejoined with a double-newline separator. -/
def normalizedText (s : String) : List Char :=
  ((trimmedParas s).intersperse ['\n', '\n']).flatten

/-- C5 (amended): if the newline-normalized form of the text fits the
budget, `break_text_into_chunks` returns exactly one chunk, equal to that
normalized form (with newline runs collapsed). -/
theorem break_text_into_chunks_single (s : String) (maxc : Nat)
    (h : (normalizedText s).length ≤ maxc) :
    break_text_into_chunks s maxc = [String.mk (collapseNL (normalizedText s))] := by
  have hsumle : (((trimmedParas s).intersperse ['\n', '\n']).map List.length).sum ≤ maxc := by
    rw [normalizedText, List.length_flatten] at h
    exact h
  have hparas : ∀ p ∈ (trimmedParas s).intersperse ['\n', '\n'], p.length ≤ maxc := by
    intro p hp
    have hmem := List.mem_map_of_mem List.length hp
    exact Nat.le_trans (List.single_le_sum (fun _ _ => Nat.zero_le _) _ hmem) hsumle
  have hfr : breakFragments maxc s = (trimmedParas s).intersperse ['\n', '\n'] := by
    unfold breakFragments
    apply flatMap_singleton_eq
    intro x hx
    rcases mem_intersperse _ hx with hsep | hpara
    · exact hsep ▸ fragExpand_sep maxc
    · exact if_pos (hparas x hx)
  have hsum : ([] : List Char).length + ((breakFragments maxc s).map List.length).sum ≤ maxc := by
    rw [hfr]
    simpa using hsumle
  unfold break_text_into_chunks
  rw [accumulate_total maxc (breakFragments maxc s) [] hsum, hfr]
  simp [normalizedText]

/-- C5 witness: a two-paragraph text whose normalized form fits a budget of
50 produces exactly one chunk. -/
theorem break_text_into_chunks_single_witness :
    (normalizedText "hi there\nsecond line").length ≤ 50 ∧
    break_text_into_chunks "hi there\nsecond line" 50 =
      [String.mk (collapseNL (normalizedText "hi there\nsecond line"))] :=
  ⟨by decide, break_text_into_chunks_single "hi there\nsecond line" 50 (by decide)⟩

/-- C5 counterexample: `"a\nb"` has 3 characters (at or below the budget 3)
and no paragraph longer than the budget, yet `break_text_into_chunks`
returns two chunks, not one, because the inserted `"\n\n"` separator
inflates the normalized text past the budget. -/
theorem break_text_into_chunks_single_counterexample :
    ("a\nb" : String).length ≤ 3 ∧
    (∀ p ∈ trimmedParas "a\nb", p.length ≤ 3) ∧
    break_text_into_chunks "a\nb" 3 = ["a", "b"] ∧
    (break_text_into_chunks "a\nb" 3).length ≠ 1 := by
  refine ⟨by decide, by decide, by decide, by decide⟩

/-- Rust `title.map(|title| format!("Title: {title}")).unwrap_or_default()`. -/
def renderTitle : Option String → String
  | some t => "Title: " ++ t
  | none => ""

/-- Rust `channel_name.map(|c| format!("\nChannel: {c}")).unwrap_or_default()`. -/
def renderChannel : Option String → String
  | some c => "\nChannel: " ++ c
  | none => ""

namespace Prompts

/-- `prompts.rs::summarize`: validate the word count, then build the one
summarize message set. The external `openai::count_tokens` is the
parameter `ct`. -/
def summarize (ct : List ChatMessage → Nat) (raw_transcript : String)
    (title channel_name : Option String) : Except String (List ChatMessage × Nat) :=
  let words := (splitW raw_transcript).length
  if words ≤ 200 then
    Except.error ("Transcript too short to summarize. (" ++ toString words
      ++ " words in transcript)")
  else
    let goal_length := min (words / 5) 2000
    let messages : List ChatMessage :=
      [⟨"system",
        "You are a summarization assistant. When the user gives you a message, you respond with a summary of the information inside. Just summarize the information without saying \"the speaker says\" or similar. The message will be an autogenerated transcript of a youtube video, and may have transcription errors and improperly separated speakers. Your summary should be about "
          ++ toString goal_length ++ " words."⟩,
       ⟨"user",
        renderTitle title ++ renderChannel channel_name ++ "\n\nTranscript: "
          ++ raw_transcript
          ++ "\n\n\nBe as concise as possible in your summary. Repeat the information as without extra fluff like '"
          ++ channel_name.getD "the speaker"
          ++ " says'. Use full markdown syntax, and break the summary into paragraphs. Emphasize the most important information in **bold**. Remember that your summary should be about "
          ++ toString goal_length
          ++ " words. Just return the summary without repeating the Title or Channel, and don't write `Summary:`"⟩]
    Except.ok (messages, ct messages)

/-- `prompts.rs::clean_transcript_one_prompt`. -/
def clean_transcript_one_prompt (raw_transcript : String)
    (title channel_name : Option String) : List ChatMessage :=
  [⟨"system",
    "You are a transcription assistant. The user will send an autogenerated transcript of a youtube video, which may have transcription errors, punctuation errors, and improperly separated speakers. You respond with a cleaned-up version of the transcript. The channel name and video title will be included in the message for additional context, but you should not include them in your response"⟩,
   ⟨"user",
    renderTitle title ++ renderChannel channel_name ++ "\n\nTranscript: "
      ++ raw_transcript
      ++ "\n\n\nClean up the transcript above, fixing punctuation, transcription errors, and improperly separated speakers. Use full markdown syntax, and break it into paragraphs. Emphasize the most important information in **bold**. Just return the transcript without repeating the Title or Channel, and don't write `Transcript:`."⟩]

/-- `prompts.rs::clean_transcript`: validate the word count, estimate the
single-prompt token cost via `ct`, split the words into
`chat_tokens / 50000 + 1` proportional chunks, and wrap each chunk into its
own message set. -/
def clean_transcript (ct : List ChatMessage → Nat) (raw_transcript : String)
    (title channel_name : Option String) :
    Except String (List (List ChatMessage) × Nat) :=
  let words := splitW raw_transcript
  if words.length ≤ 20 then
    Except.error ("Transcript too short to clean up. (" ++ toString words.length
      ++ " words in transcript)")
  else
    let first_try := clean_transcript_one_prompt raw_transcript title channel_name
    let chat_tokens := ct first_try
    let chunks_necessary := chat_tokens / 50000 + 1
    let chunk_size := words.length / chunks_necessary + 1
    let chunks := chunksOf chunk_size words
    let prompts := chunks.map
      (fun chunk => clean_transcript_one_prompt (joinW chunk) title channel_name)
    let total_tokens := (prompts.map ct).sum
    Except.ok (prompts, total_tokens)

end Prompts

/-- The `chunk_size` let-binding of `prompts.rs::clean_transcript`. -/
def cleanChunkSize (ct : List ChatMessage → Nat) (raw : String)
    (title channel : Option String) : Nat :=
  (splitW raw).length
    / (ct (Prompts.clean_transcript_one_prompt raw title channel) / 50000 + 1) + 1

/-- The `chunks` let-binding of `prompts.rs::clean_transcript`: the word
vector cut into `chunk_size`-sized runs. -/
def cleanParts (ct : List ChatMessage → Nat) (raw : String)
    (title channel : Option String) : List (List String) :=
  chunksOf (cleanChunkSize ct raw title channel) (splitW raw)

theorem cleanChunkSize_pos (ct : List ChatMessage → Nat) (raw : String)
    (title channel : Option String) : 0 < cleanChunkSize ct raw title channel :=
  Nat.succ_pos _

/-- On any accepted transcript, `clean_transcript` succeeds and returns
exactly the message sets built from the word chunks. -/
theorem clean_transcript_ok (ct : List ChatMessage → Nat) (raw : String)
    (title channel : Option String) (h : 20 < (splitW raw).length) :
    Prompts.clean_transcript ct raw title channel =
      Except.ok
        ((cleanParts ct raw title channel).map
            (fun chunk => Prompts.clean_transcript_one_prompt (joinW chunk) title channel),
          (((cleanParts ct raw title channel).map
            (fun chunk => Prompts.clean_transcript_one_prompt (joinW chunk) title channel)).map
              ct).sum) := by
  simp only [Prompts.clean_transcript, cleanParts, cleanChunkSize]
  rw [if_neg (by omega)]

/-- C1: for every transcript with more than 20 words, the word fragments
embedded in the user messages of the message sets produced by
`clean_transcript` partition the original word sequence exactly (no words
dropped or duplicated, split only at word boundaries), and their
space-joined concatenation is the original transcript. -/
theorem clean_transcript_lossless (ct : List ChatMessage → Nat) (raw : String)
    (title channel : Option String) (h : 20 < (splitW raw).length) :
    ∃ parts : List (List String),
      parts.flatten = splitW raw ∧
      joinW (parts.map joinW) = raw ∧
      Prompts.clean_transcript ct raw title channel =
        Except.ok
          (parts.map
              (fun chunk => Prompts.clean_transcript_one_prompt (joinW chunk) title channel),
            ((parts.map
              (fun chunk => Prompts.clean_transcript_one_prompt (joinW chunk) title channel)).map
                ct).sum) := by
  have hk := cleanChunkSize_pos ct raw title channel
  refine ⟨cleanParts ct raw title channel, chunksOf_flatten hk _, ?_,
    clean_transcript_ok ct raw title channel h⟩
  have hflat : (cleanParts ct raw title channel).flatten = splitW raw :=
    chunksOf_flatten hk _
  have hne : ∀ q ∈ (cleanParts ct raw title channel).map (List.map String.data), q ≠ [] := by
    intro q hq
    rcases List.mem_map.mp hq with ⟨p, hp, hpq⟩
    subst hpq
    have hpn := (chunksOf_mem hk (splitW raw) p hp).2
    simpa using hpn
  show String.mk (joinSep ' ' (((cleanParts ct raw title channel).map joinW).map String.data)) = raw
  have h1 : ((cleanParts ct raw title channel).map joinW).map String.data =
      ((cleanParts ct raw title channel).map (List.map String.data)).map (joinSep ' ') := by
    rw [List.map_map, List.map_map]
    rfl
  rw [h1, joinSep_map_flatten ' ' _ hne]
  have h3 : ((cleanParts ct raw title channel).map (List.map String.data)).flatten =
      ((cleanParts ct raw title channel).flatten).map String.data := by
    rw [List.map_flatten]
  rw [h3, hflat]
  show String.mk (joinSep ' ' (((splitOnC ' ' raw.data).map String.mk).map String.data)) = raw
  have h4 : ((splitOnC ' ' raw.data).map String.mk).map String.data = splitOnC ' ' raw.data := by
    rw [List.map_map]
    exact List.map_id _
  rw [h4, joinSep_splitOnC]

/-- C1 witness: a concrete 21-word transcript. -/
theorem clean_transcript_lossless_witness :
    20 < (splitW "a a a a a a a a a a a a a a a a a a a a a").length ∧
    ∃ parts : List (List String),
      parts.flatten = splitW "a a a a a a a a a a a a a a a a a a a a a" ∧
      joinW (parts.map joinW) = "a a a a a a a a a a a a a a a a a a a a a" ∧
      Prompts.clean_transcript (fun _ => 0) "a a a a a a a a a a a a a a a a a a a a a"
          none none =
        Except.ok
          (parts.map
              (fun chunk => Prompts.clean_transcript_one_prompt (joinW chunk) none none),
            ((parts.map
              (fun chunk => Prompts.clean_transcript_one_prompt (joinW chunk) none none)).map
                (fun _ => 0)).sum) :=
  ⟨by decide,
    clean_transcript_lossless (fun _ => 0) "a a a a a a a a a a a a a a a a a a a a a"
      none none (by decide)⟩

theorem chunks_count_le (L N : Nat) (hN : 0 < N) :
    (L + (L / N + 1 - 1)) / (L / N + 1) ≤ N := by
  have hk : 0 < L / N + 1 := Nat.succ_pos _
  have hmod := Nat.mod_lt L hN
  have hdm := Nat.div_add_mod L N
  apply Nat.lt_succ_iff.mp
  rw [Nat.div_lt_iff_lt_mul hk]
  have hexp : (N + 1) * (L / N + 1) = N * (L / N) + N + (L / N + 1) := by ring
  simp only [Nat.succ_eq_add_one]
  omega

theorem chunks_count_three (L : Nat) (hL : 20 < L) :
    (L + (L / 3 + 1 - 1)) / (L / 3 + 1) = 3 :=
  Nat.div_eq_of_lt_le (by omega) (by omega)

/-- C2 (amended): when the single-prompt estimate exceeds 50,000 tokens,
`clean_transcript` cuts the word vector into contiguous groups of exactly
`chunk_size = wordCount / N + 1` words (`N = estimate / 50000 + 1`), except
that the last group receives the remaining words; this yields at most `N`
message sets, and exactly 3 whenever `N = 3` (as in the 120,000-token
scenario). -/
theorem clean_transcript_partition_shape (ct : List ChatMessage → Nat) (raw : String)
    (title channel : Option String) (h : 20 < (splitW raw).length)
    (hbig : 50000 < ct (Prompts.clean_transcript_one_prompt raw title channel)) :
    ∃ parts : List (List String),
      Prompts.clean_transcript ct raw title channel =
        Except.ok
          (parts.map
              (fun chunk => Prompts.clean_transcript_one_prompt (joinW chunk) title channel),
            ((parts.map
              (fun chunk => Prompts.clean_transcript_one_prompt (joinW chunk) title channel)).map
                ct).sum) ∧
      parts.length ≤ ct (Prompts.clean_transcript_one_prompt raw title channel) / 50000 + 1 ∧
      (∀ p ∈ parts.dropLast, p.length = cleanChunkSize ct raw title channel) ∧
      (∀ p ∈ parts, p.length ≤ cleanChunkSize ct raw title channel) ∧
      (ct (Prompts.clean_transcript_one_prompt raw title channel) / 50000 + 1 = 3 →
        parts.length = 3) := by
  have _ := hbig
  have hk := cleanChunkSize_pos ct raw title channel
  refine ⟨cleanParts ct raw title channel, clean_transcript_ok ct raw title channel h,
    ?_, chunksOf_dropLast hk _, fun p hp => (chunksOf_mem hk _ p hp).1, ?_⟩
  · rw [cleanParts, chunksOf_length hk]
    exact chunks_count_le (splitW raw).length _ (Nat.succ_pos _)
  · intro h3
    rw [cleanParts, chunksOf_length hk, cleanChunkSize, h3]
    exact chunks_count_three (splitW raw).length h

/-- C2 witness: a 22-word transcript whose single-prompt estimate is
120,000 tokens. -/
theorem clean_transcript_partition_shape_witness :
    20 < (splitW "a a a a a a a a a a a a a a a a a a a a a a").length ∧
    50000 < (fun _ : List ChatMessage => 120000)
      (Prompts.clean_transcript_one_prompt "a a a a a a a a a a a a a a a a a a a a a a"
        none none) ∧
    ∃ parts : List (List String),
      Prompts.clean_transcript (fun _ => 120000) "a a a a a a a a a a a a a a a a a a a a a a"
          none none =
        Except.ok
          (parts.map
              (fun chunk => Prompts.clean_transcript_one_prompt (joinW chunk) none none),
            ((parts.map
              (fun chunk => Prompts.clean_transcript_one_prompt (joinW chunk) none none)).map
                (fun _ => 120000)).sum) ∧
      parts.length ≤ (fun _ : List ChatMessage => 120000)
        (Prompts.clean_transcript_one_prompt "a a a a a a a a a a a a a a a a a a a a a a"
          none none) / 50000 + 1 ∧
      (∀ p ∈ parts.dropLast,
        p.length = cleanChunkSize (fun _ => 120000)
          "a a a a a a a a a a a a a a a a a a a a a a" none none) ∧
      (∀ p ∈ parts,
        p.length ≤ cleanChunkSize (fun _ => 120000)
          "a a a a a a a a a a a a a a a a a a a a a a" none none) ∧
      ((fun _ : List ChatMessage => 120000)
        (Prompts.clean_transcript_one_prompt "a a a a a a a a a a a a a a a a a a a a a a"
          none none) / 50000 + 1 = 3 → parts.length = 3) :=
  ⟨by decide, by decide,
    clean_transcript_partition_shape (fun _ => 120000)
      "a a a a a a a a a a a a a a a a a a a a a a" none none (by decide) (by decide)⟩

/-- C2 counterexample: with a constant 120,000-token estimate (the spec's
own scenario) a 22-word transcript is cut into groups of 8, 8 and 6 words:
three message sets, but not equal-sized; moreover with a 950,000-token
estimate (`N = 20`) a 21-word transcript yields 11 message sets, not 20. -/
theorem clean_transcript_partition_counterexample :
    Prompts.clean_transcript (fun _ => 120000) "a a a a a a a a a a a a a a a a a a a a a a"
        none none =
      Except.ok
        ([Prompts.clean_transcript_one_prompt "a a a a a a a a" none none,
          Prompts.clean_transcript_one_prompt "a a a a a a a a" none none,
          Prompts.clean_transcript_one_prompt "a a a a a a" none none], 360000) ∧
    (splitW "a a a a a a a a").length = 8 ∧
    (splitW "a a a a a a").length = 6 ∧
    (8 : Nat) ≠ 6 ∧
    (∃ P T,
      Prompts.clean_transcript (fun _ => 950000) "a a a a a a a a a a a a a a a a a a a a a"
          none none = Except.ok (P, T) ∧
      P.length = 11 ∧ 950000 / 50000 + 1 = 20 ∧ (11 : Nat) ≠ 20) := by
  refine ⟨rfl, rfl, rfl, by decide, ⟨_, _, rfl, rfl, by decide, by decide⟩⟩

/-- C3 (amended): `clean_transcript` bounds each message set's share of the
transcript in words (at most `chunk_size = wordCount / N + 1` words per
set); it does not re-check the per-set token estimate against the 50,000
budget. -/
theorem clean_transcript_word_budget (ct : List ChatMessage → Nat) (raw : String)
    (title channel : Option String) (h : 20 < (splitW raw).length) :
    ∃ parts : List (List String),
      Prompts.clean_transcript ct raw title channel =
        Except.ok
          (parts.map
              (fun chunk => Prompts.clean_transcript_one_prompt (joinW chunk) title channel),
            ((parts.map
              (fun chunk => Prompts.clean_transcript_one_prompt (joinW chunk) title channel)).map
                ct).sum) ∧
      ∀ p ∈ parts, p.length ≤ cleanChunkSize ct raw title channel :=
  ⟨cleanParts ct raw title channel, clean_transcript_ok ct raw title channel h,
    fun p hp => (chunksOf_mem (cleanChunkSize_pos ct raw title channel) _ p hp).1⟩

/-- C3 witness: the word bound at a concrete 21-word transcript with a
60,000-token estimate. -/
theorem clean_transcript_word_budget_witness :
    20 < (splitW "a a a a a a a a a a a a a a a a a a a a a").length ∧
    ∃ parts : List (List String),
      Prompts.clean_transcript (fun _ => 60000) "a a a a a a a a a a a a a a a a a a a a a"
          none none =
        Except.ok
          (parts.map
              (fun chunk => Prompts.clean_transcript_one_prompt (joinW chunk) none none),
            ((parts.map
              (fun chunk => Prompts.clean_transcript_one_prompt (joinW chunk) none none)).map
                (fun _ => 60000)).sum) ∧
      ∀ p ∈ parts,
        p.length ≤ cleanChunkSize (fun _ => 60000) "a a a a a a a a a a a a a a a a a a a a a"
          none none :=
  ⟨by decide,
    clean_transcript_word_budget (fun _ => 60000) "a a a a a a a a a a a a a a a a a a a a a"
      none none (by decide)⟩

/-- C3 counterexample: a 21-word transcript whose (abstract) estimator
reports 60,000 tokens for every message set: `clean_transcript` accepts it
and produces message sets whose estimated token count exceeds the 50,000
budget — the code never re-checks the per-set estimate. -/
theorem clean_transcript_budget_counterexample :
    Prompts.clean_transcript (fun _ => 60000) "a a a a a a a a a a a a a a a a a a a a a"
        none none =
      Except.ok
        ([Prompts.clean_transcript_one_prompt "a a a a a a a a a a a" none none,
          Prompts.clean_transcript_one_prompt "a a a a a a a a a a" none none], 120000) ∧
    50000 < (fun _ : List ChatMessage => 60000)
      (Prompts.clean_transcript_one_prompt "a a a a a a a a a a a" none none) := by
  refine ⟨rfl, by decide⟩

/-- C8: every transcript with 200 words or fewer is rejected by the
summarize prompt builder with a validation error reporting the measured
word count, before any message set (hence any chat call) is built. -/
theorem prompts_summarize_too_short (ct : List ChatMessage → Nat) (raw : String)
    (title channel : Option String) (h : (splitW raw).length ≤ 200) :
    Prompts.summarize ct raw title channel =
      Except.error ("Transcript too short to summarize. ("
        ++ toString (splitW raw).length ++ " words in transcript)") := by
  simp only [Prompts.summarize]
  rw [if_pos h]

/-- C8 witness: a 50-word transcript is rejected with the measured count. -/
theorem prompts_summarize_too_short_witness :
    (splitW "a a a a a a a a a a a a a a a a a a a a a a a a a a a a a a a a a a a a a a a a a a a a a a a a a a").length ≤ 200 ∧
    Prompts.summarize (fun _ => 0)
        "a a a a a a a a a a a a a a a a a a a a a a a a a a a a a a a a a a a a a a a a a a a a a a a a a a"
        none none =
      Except.error "Transcript too short to summarize. (50 words in transcript)" := by
  refine ⟨by decide, ?_⟩
  have h := prompts_summarize_too_short (fun _ => 0)
    "a a a a a a a a a a a a a a a a a a a a a a a a a a a a a a a a a a a a a a a a a a a a a a a a a a"
    none none (by decide)
  exact h.trans (congrArg Except.error (by decide))

namespace Youtube

/-- The `goal_length` binding of `youtube.rs::summarize`:
`(raw_transcript.len() / 50).max(550)` (Rust `len()` counts UTF-8 bytes). -/
def goal_length (raw_transcript : String) : Nat :=
  max (raw_transcript.utf8ByteSize / 50) 550

/-- The `messages` binding of `youtube.rs::summarize`. -/
def summarize_messages (raw_transcript : String)
    (title channel_name : Option String) : List ChatMessage :=
  [⟨"system",
    "You are a summarization assistant. When the user gives you a message, you respond with a summary of the information inside. Just summarize the information without saying \"the speaker says\" or similar. The message will be an autogenerated transcript of a youtube video, and may have transcription errors and improperly separated speakers. Your summary should be about "
      ++ toString (goal_length raw_transcript) ++ " words."⟩,
   ⟨"user",
    renderTitle title ++ renderChannel channel_name ++ "\n\nTranscript: "
      ++ raw_transcript
      ++ "\n\n\nBe as concise as possible in your summary. Repeat the information as without extra fluff like '"
      ++ channel_name.getD "the speaker"
      ++ " says'. Use full markdown syntax, and break the summary into paragraphs. Emphasize the most important information in **bold**. Remember that your summary should be about "
      ++ toString (goal_length raw_transcript) ++ " words."⟩]

/-- `youtube.rs::summarize` up to the point where the chat request is
handed to `chat`: short-circuit validation, token estimation (`ct` stands
for the external `count_tokens`), and model-tier selection. -/
def summarize (ct : List ChatMessage → Nat) (raw_transcript : String)
    (title channel_name : Option String) : Except String ChatApiRequest :=
  if goal_length raw_transcript ≤ 10 then
    Except.error ("Transcript too short to summarize. (Summary goal length would have been "
      ++ toString (goal_length raw_transcript) ++ " words)")
  else
    let messages := summarize_messages raw_transcript title channel_name
    let chat_tokens := ct messages
    if 13000 < chat_tokens then
      Except.error ("Transcript too long to summarize. (" ++ toString chat_tokens
        ++ " tokens)")
    else if chat_tokens < 3000 then
      Except.ok ⟨"gpt-4", messages⟩
    else
      Except.ok ⟨"gpt-3.5-turbo-16k", messages⟩

/-- The clipping step of `youtube.rs::get_video_summary`: if the summary is
longer than 4096 bytes, keep its first 4093 characters and append `"..."`. -/
def clip_summary (summary : String) : String :=
  if 4096 < summary.utf8ByteSize then
    String.mk (summary.data.take 4093 ++ "...".data)
  else
    summary

/-- Observable events of the chat invoker: a network attempt with its
request, or a sleep of a fixed number of seconds. -/
inductive ChatEvent where
  | call (req : ChatApiRequest)
  | sleepSecs (secs : Nat)
deriving DecidableEq

/-- `youtube.rs::chat`: try `chat_once`; on failure sleep 60 seconds and
try the identical request exactly once more, returning the second outcome
as is. `chat_once` abstracts the network call, indexed by attempt number;
the returned trace records the attempts and the sleep. -/
def chat (chat_once : ChatApiRequest → Nat → Except String String)
    (chat_api_request : ChatApiRequest) : Except String String × List ChatEvent :=
  match chat_once chat_api_request 0 with
  | Except.ok response => (Except.ok response, [ChatEvent.call chat_api_request])
  | Except.error _ =>
    (chat_once chat_api_request 1,
      [ChatEvent.call chat_api_request, ChatEvent.sleepSecs 60,
        ChatEvent.call chat_api_request])

/-- The number of network attempts recorded in a trace. -/
def attempts (trace : List ChatEvent) : Nat :=
  (trace.filter fun e => match e with | ChatEvent.call _ => true | _ => false).length

end Youtube

theorem goal_length_ge (raw : String) : 550 ≤ Youtube.goal_length raw :=
  Nat.le_max_right _ _

/-- C10: the "Transcript too short to summarize" branch in
`youtube.rs::summarize` is unreachable: the goal length is
`max(len / 50, 550) ≥ 550 > 10` for every input, so the function always
proceeds to token estimation and model selection. -/
theorem youtube_summarize_short_unreachable (ct : List ChatMessage → Nat)
    (raw : String) (title channel : Option String) :
    550 ≤ Youtube.goal_length raw ∧
    Youtube.summarize ct raw title channel =
      (if 13000 < ct (Youtube.summarize_messages raw title channel) then
        Except.error ("Transcript too long to summarize. ("
          ++ toString (ct (Youtube.summarize_messages raw title channel)) ++ " tokens)")
      else if ct (Youtube.summarize_messages raw title channel) < 3000 then
        Except.ok ⟨"gpt-4", Youtube.summarize_messages raw title channel⟩
      else
        Except.ok ⟨"gpt-3.5-turbo-16k", Youtube.summarize_messages raw title channel⟩) := by
  refine ⟨goal_length_ge raw, ?_⟩
  have h := goal_length_ge raw
  simp only [Youtube.summarize]
  rw [if_neg (by omega)]

/-- C6: on the summarize path, an estimate above 13,000 tokens is rejected
with the "too long to summarize" error before any network call; below
3,000 the `gpt-4` tier is selected; from 3,000 through 13,000 inclusive
the `gpt-3.5-turbo-16k` tier is selected. -/
theorem youtube_summarize_model_selection (ct : List ChatMessage → Nat)
    (raw : String) (title channel : Option String) :
    (13000 < ct (Youtube.summarize_messages raw title channel) →
      Youtube.summarize ct raw title channel =
        Except.error ("Transcript too long to summarize. ("
          ++ toString (ct (Youtube.summarize_messages raw title channel)) ++ " tokens)")) ∧
    (ct (Youtube.summarize_messages raw title channel) < 3000 →
      Youtube.summarize ct raw title channel =
        Except.ok ⟨"gpt-4", Youtube.summarize_messages raw title channel⟩) ∧
    (3000 ≤ ct (Youtube.summarize_messages raw title channel) →
      ct (Youtube.summarize_messages raw title channel) ≤ 13000 →
      Youtube.summarize ct raw title channel =
        Except.ok ⟨"gpt-3.5-turbo-16k", Youtube.summarize_messages raw title channel⟩) := by
  have hbase := (youtube_summarize_short_unreachable ct raw title channel).2
  refine ⟨?_, ?_, ?_⟩
  · intro hgt
    rw [hbase, if_pos hgt]
  · intro hlt
    rw [hbase, if_neg (by omega), if_pos hlt]
  · intro hge hle
    rw [hbase, if_neg (by omega), if_neg (by omega)]

/-- C6 witness: constant estimators at 13,001, 2,999 and 13,000 tokens hit
the three branches. -/
theorem youtube_summarize_model_selection_witness :
    (13000 < (fun _ : List ChatMessage => 13001) (Youtube.summarize_messages "t" none none) ∧
      Youtube.summarize (fun _ => 13001) "t" none none =
        Except.error ("Transcript too long to summarize. ("
          ++ toString ((fun _ : List ChatMessage => 13001)
            (Youtube.summarize_messages "t" none none)) ++ " tokens)")) ∧
    ((fun _ : List ChatMessage => 2999) (Youtube.summarize_messages "t" none none) < 3000 ∧
      Youtube.summarize (fun _ => 2999) "t" none none =
        Except.ok ⟨"gpt-4", Youtube.summarize_messages "t" none none⟩) ∧
    (3000 ≤ (fun _ : List ChatMessage => 13000) (Youtube.summarize_messages "t" none none) ∧
      (fun _ : List ChatMessage => 13000) (Youtube.summarize_messages "t" none none) ≤ 13000 ∧
      Youtube.summarize (fun _ => 13000) "t" none none =
        Except.ok ⟨"gpt-3.5-turbo-16k", Youtube.summarize_messages "t" none none⟩) :=
  ⟨⟨by decide, (youtube_summarize_model_selection (fun _ => 13001) "t" none none).1 (by decide)⟩,
    ⟨by decide, (youtube_summarize_model_selection (fun _ => 2999) "t" none none).2.1 (by decide)⟩,
    ⟨by decide, by decide,
      (youtube_summarize_model_selection (fun _ => 13000) "t" none none).2.2
        (by decide) (by decide)⟩⟩

/-- C7: a first failure triggers exactly one retry of the identical request
after a fixed 60-second sleep, and the second outcome is returned
unmodified (two attempts total); a first-attempt success is returned
immediately with no retry (one attempt). -/
theorem youtube_chat_retry (chat_once : ChatApiRequest → Nat → Except String String)
    (req : ChatApiRequest) :
    ((∃ e, chat_once req 0 = Except.error e) →
      Youtube.chat chat_once req =
        (chat_once req 1,
          [Youtube.ChatEvent.call req, Youtube.ChatEvent.sleepSecs 60,
            Youtube.ChatEvent.call req]) ∧
      Youtube.attempts (Youtube.chat chat_once req).2 = 2) ∧
    (∀ r, chat_once req 0 = Except.ok r →
      Youtube.chat chat_once req = (Except.ok r, [Youtube.ChatEvent.call req]) ∧
      Youtube.attempts (Youtube.chat chat_once req).2 = 1) := by
  constructor
  · rintro ⟨e, he⟩
    have hc : Youtube.chat chat_once req =
        (chat_once req 1,
          [Youtube.ChatEvent.call req, Youtube.ChatEvent.sleepSecs 60,
            Youtube.ChatEvent.call req]) := by
      unfold Youtube.chat
      rw [he]
    exact ⟨hc, by rw [hc]; rfl⟩
  · intro r hr
    have hc : Youtube.chat chat_once req =
        (Except.ok r, [Youtube.ChatEvent.call req]) := by
      unfold Youtube.chat
      rw [hr]
    exact ⟨hc, by rw [hc]; rfl⟩

/-- C7 witness: an always-failing invoker is attempted exactly twice and
surfaces the second failure; an immediately-succeeding invoker is attempted
once. -/
theorem youtube_chat_retry_witness :
    ((∃ e, (fun (_ : ChatApiRequest) (_ : Nat) => (Except.error "boom" : Except String String))
        ⟨"gpt-4", []⟩ 0 = Except.error e) ∧
      Youtube.chat (fun _ _ => Except.error "boom") ⟨"gpt-4", []⟩ =
        (Except.error "boom",
          [Youtube.ChatEvent.call ⟨"gpt-4", []⟩, Youtube.ChatEvent.sleepSecs 60,
            Youtube.ChatEvent.call ⟨"gpt-4", []⟩]) ∧
      Youtube.attempts (Youtube.chat (fun _ _ => Except.error "boom") ⟨"gpt-4", []⟩).2 = 2) ∧
    ((fun (_ : ChatApiRequest) (_ : Nat) => (Except.ok "hi" : Except String String))
        ⟨"gpt-4", []⟩ 0 = Except.ok "hi" ∧
      Youtube.chat (fun _ _ => Except.ok "hi") ⟨"gpt-4", []⟩ =
        (Except.ok "hi", [Youtube.ChatEvent.call ⟨"gpt-4", []⟩]) ∧
      Youtube.attempts (Youtube.chat (fun _ _ => Except.ok "hi") ⟨"gpt-4", []⟩).2 = 1) := by
  constructor
  · have h := (youtube_chat_retry (fun _ _ => Except.error "boom") ⟨"gpt-4", []⟩).1
      ⟨"boom", rfl⟩
    exact ⟨⟨"boom", rfl⟩, h.1, h.2⟩
  · have h := (youtube_chat_retry (fun _ _ => Except.ok "hi") ⟨"gpt-4", []⟩).2 "hi" rfl
    exact ⟨rfl, h.1, h.2⟩

theorem utf8ByteSize_go_ge (l : List Char) :
    l.length ≤ String.utf8ByteSize.go l := by
  induction l with
  | nil => simp [String.utf8ByteSize.go]
  | cons c cs ih =>
    have := Char.utf8Size_pos c
    simp only [String.utf8ByteSize.go, List.length_cons]
    omega

theorem length_le_utf8ByteSize (s : String) : s.length ≤ s.utf8ByteSize := by
  cases s with
  | mk data => exact utf8ByteSize_go_ge data

/-- C9: a chat response whose character count exceeds 4096 is clipped to
its first 4093 characters plus `"..."` (exactly 4096 characters, losing the
remainder); the clipped summary handed to display chunking never exceeds
4096 characters. -/
theorem clip_summary_spec (s : String) :
    (4096 < s.length →
      Youtube.clip_summary s = String.mk (s.data.take 4093 ++ "...".data) ∧
      (Youtube.clip_summary s).length = 4096 ∧
      Youtube.clip_summary s ≠ s) ∧
    (Youtube.clip_summary s).length ≤ 4096 := by
  constructor
  · intro hlen
    have hbytes : 4096 < s.utf8ByteSize :=
      Nat.lt_of_lt_of_le hlen (length_le_utf8ByteSize s)
    have hclip : Youtube.clip_summary s = String.mk (s.data.take 4093 ++ "...".data) := by
      unfold Youtube.clip_summary
      rw [if_pos hbytes]
    have hclen : (Youtube.clip_summary s).length = 4096 := by
      rw [hclip, length_mk, List.length_append, List.length_take]
      have : s.data.length = s.length := rfl
      simp only [this]
      have h3 : ("..." : String).data.length = 3 := rfl
      rw [h3]
      omega
    refine ⟨hclip, hclen, ?_⟩
    intro heq
    rw [heq] at hclen
    omega
  · rcases Nat.lt_or_ge 4096 s.utf8ByteSize with hgt | hle
    · have hclip : Youtube.clip_summary s = String.mk (s.data.take 4093 ++ "...".data) := by
        unfold Youtube.clip_summary
        rw [if_pos hgt]
      rw [hclip, length_mk, List.length_append, List.length_take]
      have h3 : ("..." : String).data.length = 3 := rfl
      rw [h3]
      omega
    · have hclip : Youtube.clip_summary s = s := by
        unfold Youtube.clip_summary
        rw [if_neg (by omega)]
      rw [hclip]
      exact Nat.le_trans (length_le_utf8ByteSize s) hle

/-- C9 witness: a 4097-character summary is clipped to exactly 4096
characters and is no longer equal to the original. -/
theorem clip_summary_spec_witness :
    4096 < (String.mk (List.replicate 4097 'a')).length ∧
    Youtube.clip_summary (String.mk (List.replicate 4097 'a')) =
      String.mk ((String.mk (List.replicate 4097 'a')).data.take 4093 ++ "...".data) ∧
    (Youtube.clip_summary (String.mk (List.replicate 4097 'a'))).length = 4096 ∧
    Youtube.clip_summary (String.mk (List.replicate 4097 'a')) ≠
      String.mk (List.replicate 4097 'a') := by
  have h := (clip_summary_spec (String.mk (List.replicate 4097 'a'))).1
    (by rw [length_mk, List.length_replicate]; omega)
  exact ⟨by rw [length_mk, List.length_replicate]; omega, h.1, h.2.1, h.2.2⟩
